import Mathlib

/-!
Shallow embedding of `src/version_util.py`.

The source defines three functions, each of the shape

    def inc_patch(version):
        major, minor, patch = version.strip("v").split('.')
        return "v{}.{}.{}".format(major, minor, int(patch) + 1)

We model Python strings as `List Char` and embed each primitive the source
uses:

* `version.strip("v")`  — remove the maximal leading and trailing runs of
  the character `v` (Python `str.strip(chars)` is a character-set strip at
  both ends, never of interior characters, and with an explicit argument it
  does not touch whitespace);
* `.split('.')`         — split on every occurrence of `.`, keeping empty
  fields (`"".split('.') == ['']`);
* tuple unpacking       — succeeds only for exactly three fields, else the
  call raises (modelled as `Except.error ParseError.fieldCount`);
* `int(s)`              — Python integer parsing: optional surrounding
  whitespace, optional sign, a nonempty digit run in which single
  underscores may separate digits; failure raises (modelled as
  `Except.error ParseError.badInt`);
* `str(i)` via `format` — canonical decimal text, `-` sign for negatives,
  no padding.
-/

/-- Test for the character `v`, the argument of `strip` in the source. -/
def isV (c : Char) : Bool := c = 'v'

/-- Python `s.strip(chars)` for a one-character set `p`: drop the maximal
leading run, then the maximal trailing run, of characters satisfying `p`. -/
def pstrip (p : Char → Bool) (l : List Char) : List Char :=
  (l.dropWhile p).rdropWhile p

/-- The source's `version.strip("v")`. -/
def stripV (l : List Char) : List Char := pstrip isV l

/-- Python `s.split('.')`: split at every `.`, keeping empty fields; the
empty string yields one empty field. -/
def splitDot : List Char → List (List Char)
  | [] => [[]]
  | c :: cs =>
    if c = '.' then [] :: splitDot cs
    else
      match splitDot cs with
      | [] => [[c]]
      | f :: rest => (c :: f) :: rest

/-- ASCII decimal digit test, as used by Python `int` on ASCII input. -/
def isDig (c : Char) : Bool := 48 ≤ c.toNat && c.toNat ≤ 57

/-- Numeric value of a decimal digit character. -/
def digitVal (c : Char) : Nat := c.toNat - 48

/-- Whitespace characters stripped by Python `int` around its argument
(space, tab, linefeed, vertical tab, formfeed, carriage return). -/
def isPySpace (c : Char) : Bool := c.toNat = 32 || (9 ≤ c.toNat && c.toNat ≤ 13)

/-- Digit-run tail of Python `int` parsing: after at least one digit has
been read into `acc`, consume further digits, allowing a single underscore
between two digits (Python 3 underscore grouping). -/
def parseDigitsRest : Nat → List Char → Option Nat
  | acc, [] => some acc
  | acc, c :: cs =>
    if isDig c then parseDigitsRest (acc * 10 + digitVal c) cs
    else if c = '_' then
      match cs with
      | [] => none
      | d :: cs2 =>
        if isDig d then parseDigitsRest (acc * 10 + digitVal d) cs2 else none
    else none

/-- Nonempty digit run: the first character must be a digit. -/
def parseDigits : List Char → Option Nat
  | [] => none
  | c :: cs => if isDig c then parseDigitsRest (digitVal c) cs else none

/-- Signed part of Python `int` parsing, applied after whitespace has been
stripped: an optional single `-` or `+`, then a nonempty digit run. -/
def pyIntCore : List Char → Option Int
  | [] => none
  | c :: rest =>
    if c = '-' then (parseDigits rest).map (fun n => -(n : Int))
    else if c = '+' then (parseDigits rest).map (fun n => (n : Int))
    else (parseDigits (c :: rest)).map (fun n => (n : Int))

/-- Python `int(s)` on a string: strip whitespace at both ends, then parse
an optionally signed decimal integer; `none` models the `ValueError`. -/
def pyInt (s : List Char) : Option Int :=
  pyIntCore (pstrip isPySpace s)

/-- Decimal digit character for a value `0 ≤ d ≤ 9` (values `≥ 9` all map
to `9`; the function is only used with `d < 10`). -/
def decDigit (d : Nat) : Char :=
  if d = 0 then '0' else if d = 1 then '1' else if d = 2 then '2'
  else if d = 3 then '3' else if d = 4 then '4' else if d = 5 then '5'
  else if d = 6 then '6' else if d = 7 then '7' else if d = 8 then '8' else '9'

/-- Value of a digit string read most-significant-digit first. -/
def digitsVal (l : List Char) : Nat := l.foldl (fun a c => a * 10 + digitVal c) 0

/-- Fuel-indexed digit emission for `str` of a nonnegative integer: peel the
least significant digit onto `acc` until the value is a single digit. The
fuel only bounds the recursion; any `fuel > n` gives the digits of `n`. -/
def natToCharsAux : Nat → Nat → List Char → List Char
  | 0, _, acc => acc
  | fuel + 1, n, acc =>
    if n < 10 then decDigit n :: acc
    else natToCharsAux fuel (n / 10) (decDigit (n % 10) :: acc)

/-- Python `str(n)` for a nonnegative integer: canonical decimal text,
no padding, most significant digit first. -/
def natToChars (n : Nat) : List Char := natToCharsAux (n + 1) n []

/-- Python `str(i)` for an integer: a `-` sign followed by the digits of the
absolute value when negative, plain digits otherwise. -/
def intToChars (i : Int) : List Char :=
  if i < 0 then '-' :: natToChars i.natAbs else natToChars i.natAbs

/-- The two ways a call in the source can raise: tuple unpacking of the
split result fails (not exactly three fields), or `int()` fails on the
field being incremented. The spec groups both as `ParseError`. -/
inductive ParseError where
  | fieldCount
  | badInt
deriving DecidableEq

deriving instance DecidableEq for Except

/-- Embedding of `inc_patch`: strip `v` at the ends, split on `.`, require
exactly three fields, parse the third as an integer, rebuild the string as
`v{major}.{minor}.{patch+1}` with the first two fields passed through
verbatim. -/
def inc_patch (version : List Char) : Except ParseError (List Char) :=
  match splitDot (stripV version) with
  | [major, minor, patch] =>
    match pyInt patch with
    | some p => .ok ('v' :: (major ++ '.' :: (minor ++ '.' :: intToChars (p + 1))))
    | none => .error .badInt
  | _ => .error .fieldCount

/-- Embedding of `inc_minor`: like `inc_patch` but the second field is
parsed and incremented; the first and third pass through verbatim. -/
def inc_minor (version : List Char) : Except ParseError (List Char) :=
  match splitDot (stripV version) with
  | [major, minor, patch] =>
    match pyInt minor with
    | some m => .ok ('v' :: (major ++ '.' :: (intToChars (m + 1) ++ '.' :: patch)))
    | none => .error .badInt
  | _ => .error .fieldCount

/-- Embedding of `inc_major`: like `inc_patch` but the first field is
parsed and incremented; the second and third pass through verbatim. -/
def inc_major (version : List Char) : Except ParseError (List Char) :=
  match splitDot (stripV version) with
  | [major, minor, patch] =>
    match pyInt major with
    | some m => .ok ('v' :: (intToChars (m + 1) ++ '.' :: (minor ++ '.' :: patch)))
    | none => .error .badInt
  | _ => .error .fieldCount

example : inc_patch ("v1.2.3".data) = .ok ("v1.2.4".data) := by decide
example : inc_patch ("v1.2.9".data) = .ok ("v1.2.10".data) := by decide
example : inc_major ("v3.4.5".data) = .ok ("v4.4.5".data) := by decide
example : inc_minor ("v1.2.3".data) = .ok ("v1.3.3".data) := by decide
example : inc_patch ("1.2.3".data) = .ok ("v1.2.4".data) := by decide
example : inc_patch ("v1.2".data) = .error .fieldCount := by decide
example : inc_patch ("v1.2.3.4".data) = .error .fieldCount := by decide
example : inc_patch ("v1.2.x".data) = .error .badInt := by decide
example : inc_patch ("v01.02.003".data) = .ok ("v01.02.4".data) := by decide
example : inc_patch ("v1.2.-3".data) = .ok ("v1.2.-2".data) := by decide
example : inc_patch (" v1.2.3 ".data) = .ok ("v v1.2.4".data) := by decide
example : inc_patch ("1.v2.3".data) = .ok ("v1.v2.4".data) := by decide
example : inc_patch ("vv1.2.3".data) = .ok ("v1.2.4".data) := by decide
example : inc_patch ("1.2.3v".data) = .ok ("v1.2.4".data) := by decide
example : inc_patch ("v1.2.1_0".data) = .ok ("v1.2.11".data) := by decide

/-! ### Character-class facts -/

theorem isDig_toNat {c : Char} (h : isDig c = true) : 48 ≤ c.toNat ∧ c.toNat ≤ 57 := by
  simpa [isDig, Bool.and_eq_true, decide_eq_true_eq] using h

theorem isDig_isV_false {c : Char} (h : isDig c = true) : isV c = false := by
  have hn := isDig_toNat h
  simp only [isV, decide_eq_false_iff_not]
  rintro rfl
  exact absurd hn.2 (by decide)

theorem isDig_isPySpace_false {c : Char} (h : isDig c = true) : isPySpace c = false := by
  have hn := isDig_toNat h
  simp only [isPySpace, Bool.or_eq_false_iff, Bool.and_eq_false_iff, decide_eq_false_iff_not]
  omega

theorem isDig_ne_dot {c : Char} (h : isDig c = true) : ¬(c = '.') := by
  have hn := isDig_toNat h
  rintro rfl
  exact absurd hn.1 (by decide)

theorem isDig_ne_minus {c : Char} (h : isDig c = true) : ¬(c = '-') := by
  have hn := isDig_toNat h
  rintro rfl
  exact absurd hn.1 (by decide)

theorem isDig_ne_plus {c : Char} (h : isDig c = true) : ¬(c = '+') := by
  have hn := isDig_toNat h
  rintro rfl
  exact absurd hn.1 (by decide)

/-! ### Lemmas about `pstrip` (Python `strip`) -/

theorem dropWhile_all_true {p : Char → Bool} :
    ∀ {a : List Char}, (∀ c ∈ a, p c = true) →
      ∀ (m : List Char), List.dropWhile p (a ++ m) = List.dropWhile p m := by
  intro a
  induction a with
  | nil => intro _ m; rfl
  | cons x xs ih =>
    intro h m
    have hx : p x = true := h x (List.mem_cons_self x xs)
    simp only [List.cons_append, List.dropWhile_cons, hx, if_pos]
    exact ih (fun c hc => h c (List.mem_cons_of_mem x hc)) m

theorem dropWhile_nil_of_all {p : Char → Bool} {a : List Char}
    (h : ∀ c ∈ a, p c = true) : List.dropWhile p a = [] := by
  have := dropWhile_all_true h ([] : List Char)
  simpa using this

theorem rdropWhile_all_true {p : Char → Bool} {b : List Char}
    (h : ∀ c ∈ b, p c = true) (m : List Char) :
    List.rdropWhile p (m ++ b) = List.rdropWhile p m := by
  unfold List.rdropWhile
  rw [List.reverse_append]
  rw [dropWhile_all_true (fun c hc => h c (List.mem_reverse.mp hc)) m.reverse]

theorem pstrip_pad {p : Char → Bool} {a b : List Char}
    (ha : ∀ c ∈ a, p c = true) (hb : ∀ c ∈ b, p c = true) (m : List Char) :
    pstrip p (a ++ m ++ b) = pstrip p m := by
  unfold pstrip
  rw [List.append_assoc, dropWhile_all_true ha (m ++ b)]
  rw [List.dropWhile_append]
  by_cases hm : (List.dropWhile p m).isEmpty
  · rw [if_pos hm]
    rw [dropWhile_nil_of_all hb]
    simp only [List.isEmpty_iff] at hm
    rw [hm]
  · rw [if_neg hm]
    exact rdropWhile_all_true hb _

theorem pstrip_eq_self {p : Char → Bool} {l : List Char}
    (h : ∀ c ∈ l, p c = false) : pstrip p l = l := by
  unfold pstrip
  have h1 : List.dropWhile p l = l := by
    rw [List.dropWhile_eq_self_iff]
    intro hl
    have hc := h _ (List.get_mem l 0 hl)
    simpa using hc
  rw [h1, List.rdropWhile_eq_self_iff]
  intro hl
  have hc := h _ (List.getLast_mem hl)
  simp [hc]

theorem dropWhile_head_false {p : Char → Bool} :
    ∀ {l x xs}, List.dropWhile p l = x :: xs → p x = false := by
  intro l
  induction l with
  | nil =>
    intro x xs h
    exact absurd h (by simp)
  | cons y ys ih =>
    intro x xs h
    cases hy : p y with
    | true =>
      rw [List.dropWhile_cons, if_pos (by simp [hy])] at h
      exact ih h
    | false =>
      rw [List.dropWhile_cons, if_neg (by simp [hy])] at h
      injection h with h1 h2
      rw [← h1]
      exact hy

theorem dropWhile_rdropWhile_dropWhile {p : Char → Bool} (l : List Char) :
    List.dropWhile p (List.rdropWhile p (List.dropWhile p l)) =
      List.rdropWhile p (List.dropWhile p l) := by
  rcases hrd : List.rdropWhile p (List.dropWhile p l) with _ | ⟨x, xs⟩
  · rfl
  · obtain ⟨t, ht⟩ := List.rdropWhile_prefix p (List.dropWhile p l)
    rw [hrd] at ht
    have ht2 : List.dropWhile p l = x :: (xs ++ t) := by
      rw [← ht]
      simp
    have hx : p x = false := dropWhile_head_false ht2
    rw [List.dropWhile_cons, if_neg (by simp [hx])]

theorem pstrip_idem (p : Char → Bool) (l : List Char) :
    pstrip p (pstrip p l) = pstrip p l := by
  unfold pstrip
  rw [dropWhile_rdropWhile_dropWhile, List.rdropWhile_idempotent]

theorem stripV_idem (l : List Char) : stripV (stripV l) = stripV l :=
  pstrip_idem isV l

theorem stripV_cons_v (l : List Char) : stripV ('v' :: l) = stripV l := by
  unfold stripV pstrip
  rw [List.dropWhile_cons]
  norm_num [isV]

theorem stripV_eq_self {l : List Char} (h : ∀ c ∈ l, isV c = false) :
    stripV l = l :=
  pstrip_eq_self h

/-! ### Lemmas about `splitDot` (Python `split('.')`) -/

theorem splitDot_no_dot {A : List Char} (h : ∀ c ∈ A, ¬(c = '.')) :
    splitDot A = [A] := by
  induction A with
  | nil => rfl
  | cons x xs ih =>
    have hx : ¬(x = '.') := h x (List.mem_cons_self x xs)
    have hxs := ih (fun c hc => h c (List.mem_cons_of_mem x hc))
    simp only [splitDot, if_neg hx, hxs]

theorem splitDot_append_dot {A : List Char} (h : ∀ c ∈ A, ¬(c = '.'))
    (r : List Char) : splitDot (A ++ '.' :: r) = A :: splitDot r := by
  induction A with
  | nil =>
    rw [List.nil_append]
    simp [splitDot]
  | cons x xs ih =>
    have hx : ¬(x = '.') := h x (List.mem_cons_self x xs)
    have hxs := ih (fun c hc => h c (List.mem_cons_of_mem x hc))
    rw [List.cons_append]
    simp only [splitDot, if_neg hx]
    rw [hxs]

theorem splitDot_three {A B C : List Char} (hA : ∀ c ∈ A, ¬(c = '.'))
    (hB : ∀ c ∈ B, ¬(c = '.')) (hC : ∀ c ∈ C, ¬(c = '.')) :
    splitDot (A ++ '.' :: (B ++ '.' :: C)) = [A, B, C] := by
  rw [splitDot_append_dot hA, splitDot_append_dot hB, splitDot_no_dot hC]

/-! ### Lemmas about decimal formatting (`str` of an integer) -/

theorem decDigit_isDig {d : Nat} (h : d < 10) : isDig (decDigit d) = true := by
  interval_cases d <;> decide

theorem digitVal_decDigit {d : Nat} (h : d < 10) : digitVal (decDigit d) = d := by
  interval_cases d <;> decide

theorem natToCharsAux_acc (fuel : Nat) :
    ∀ (n : Nat) (acc : List Char),
      natToCharsAux fuel n acc = natToCharsAux fuel n [] ++ acc := by
  induction fuel with
  | zero => intro n acc; rfl
  | succ fuel ih =>
    intro n acc
    by_cases hn : n < 10
    · simp only [natToCharsAux, if_pos hn]
      rfl
    · simp only [natToCharsAux, if_neg hn]
      rw [ih (n / 10) (decDigit (n % 10) :: acc), ih (n / 10) [decDigit (n % 10)]]
      simp

theorem natToCharsAux_spec (fuel : Nat) :
    ∀ n : Nat, n < fuel →
      digitsVal (natToCharsAux fuel n []) = n
      ∧ (∀ c ∈ natToCharsAux fuel n [], isDig c = true)
      ∧ natToCharsAux fuel n [] ≠ [] := by
  induction fuel with
  | zero => intro n hn; omega
  | succ fuel ih =>
    intro n hn
    by_cases h10 : n < 10
    · simp only [natToCharsAux, if_pos h10]
      refine ⟨?_, ?_, by simp⟩
      · simp only [digitsVal, List.foldl_cons, List.foldl_nil, Nat.zero_mul, Nat.zero_add]
        exact digitVal_decDigit h10
      · intro c hc
        rw [List.mem_singleton] at hc
        rw [hc]
        exact decDigit_isDig h10
    · have hdiv : n / 10 < n := Nat.div_lt_self (by omega) (by omega)
      have hfuel : n / 10 < fuel := by omega
      obtain ⟨ihv, ihd, ihne⟩ := ih (n / 10) hfuel
      simp only [natToCharsAux, if_neg h10]
      rw [natToCharsAux_acc fuel (n / 10) [decDigit (n % 10)]]
      refine ⟨?_, ?_, by simp⟩
      · simp only [digitsVal] at ihv ⊢
        rw [List.foldl_append]
        simp only [List.foldl_cons, List.foldl_nil, ihv]
        rw [digitVal_decDigit (Nat.mod_lt n (by omega))]
        omega
      · intro c hc
        rw [List.mem_append] at hc
        rcases hc with hc | hc
        · exact ihd c hc
        · rw [List.mem_singleton] at hc
          rw [hc]
          exact decDigit_isDig (Nat.mod_lt n (by omega))

theorem natToChars_val (n : Nat) : digitsVal (natToChars n) = n :=
  (natToCharsAux_spec (n + 1) n (Nat.lt_succ_self n)).1

theorem natToChars_digits (n : Nat) : ∀ c ∈ natToChars n, isDig c = true :=
  (natToCharsAux_spec (n + 1) n (Nat.lt_succ_self n)).2.1

theorem natToChars_ne_nil (n : Nat) : natToChars n ≠ [] :=
  (natToCharsAux_spec (n + 1) n (Nat.lt_succ_self n)).2.2

theorem intToChars_ofNat (n : Nat) : intToChars (n : Int) = natToChars n := by
  unfold intToChars
  rw [if_neg (by omega)]
  simp

/-! ### Lemmas about integer parsing (`int`) -/

theorem parseDigitsRest_digits :
    ∀ (l : List Char), (∀ c ∈ l, isDig c = true) → ∀ acc : Nat,
      parseDigitsRest acc l = some (l.foldl (fun a c => a * 10 + digitVal c) acc) := by
  intro l
  induction l with
  | nil => intro _ acc; rfl
  | cons x xs ih =>
    intro h acc
    have hx : isDig x = true := h x (List.mem_cons_self x xs)
    have hstep : parseDigitsRest acc (x :: xs) = parseDigitsRest (acc * 10 + digitVal x) xs := by
      cases xs with
      | nil => rw [parseDigitsRest.eq_2, if_pos hx]
      | cons d cs => rw [parseDigitsRest.eq_3, if_pos hx]
    rw [hstep, List.foldl_cons]
    exact ih (fun c hc => h c (List.mem_cons_of_mem x hc)) _

theorem parseDigits_digits {l : List Char} (hne : l ≠ [])
    (h : ∀ c ∈ l, isDig c = true) : parseDigits l = some (digitsVal l) := by
  cases l with
  | nil => exact absurd rfl hne
  | cons x xs =>
    have hx : isDig x = true := h x (List.mem_cons_self x xs)
    simp only [parseDigits, if_pos hx]
    rw [parseDigitsRest_digits xs (fun c hc => h c (List.mem_cons_of_mem x hc))]
    simp only [digitsVal, List.foldl_cons, Nat.zero_mul, Nat.zero_add]

theorem pstrip_natToChars (n : Nat) : pstrip isPySpace (natToChars n) = natToChars n :=
  pstrip_eq_self (fun c hc => isDig_isPySpace_false (natToChars_digits n c hc))

theorem pyInt_natToChars (n : Nat) : pyInt (natToChars n) = some (n : Int) := by
  unfold pyInt
  rw [pstrip_natToChars]
  rcases hl : natToChars n with _ | ⟨x, xs⟩
  · exact absurd hl (natToChars_ne_nil n)
  · have hdig : ∀ c ∈ x :: xs, isDig c = true := by
      rw [← hl]
      exact natToChars_digits n
    have hx : isDig x = true := hdig x (List.mem_cons_self x xs)
    simp only [pyIntCore, if_neg (isDig_ne_minus hx), if_neg (isDig_ne_plus hx)]
    rw [parseDigits_digits (by simp) hdig]
    rw [← hl, natToChars_val]
    rfl

theorem pyInt_neg_natToChars (n : Nat) :
    pyInt ('-' :: natToChars n) = some (-(n : Int)) := by
  unfold pyInt
  have hstrip : pstrip isPySpace ('-' :: natToChars n) = '-' :: natToChars n := by
    apply pstrip_eq_self
    intro c hc
    rcases List.mem_cons.mp hc with hc | hc
    · rw [hc]
      decide
    · exact isDig_isPySpace_false (natToChars_digits n c hc)
  rw [hstrip]
  simp only [pyIntCore, if_pos rfl]
  rcases hl : natToChars n with _ | ⟨x, xs⟩
  · exact absurd hl (natToChars_ne_nil n)
  · have hdig : ∀ c ∈ x :: xs, isDig c = true := by
      rw [← hl]
      exact natToChars_digits n
    rw [parseDigits_digits (by simp) hdig]
    rw [← hl, natToChars_val]
    rfl

/-! ### Evaluation lemmas for the three operations -/

theorem inc_patch_eval {s major minor patch : List Char} {p : Int}
    (h : splitDot (stripV s) = [major, minor, patch]) (hp : pyInt patch = some p) :
    inc_patch s = .ok ('v' :: (major ++ '.' :: (minor ++ '.' :: intToChars (p + 1)))) := by
  simp only [inc_patch, h, hp]

theorem inc_minor_eval {s major minor patch : List Char} {m : Int}
    (h : splitDot (stripV s) = [major, minor, patch]) (hm : pyInt minor = some m) :
    inc_minor s = .ok ('v' :: (major ++ '.' :: (intToChars (m + 1) ++ '.' :: patch))) := by
  simp only [inc_minor, h, hm]

theorem inc_major_eval {s major minor patch : List Char} {m : Int}
    (h : splitDot (stripV s) = [major, minor, patch]) (hm : pyInt major = some m) :
    inc_major s = .ok ('v' :: (intToChars (m + 1) ++ '.' :: (minor ++ '.' :: patch))) := by
  simp only [inc_major, h, hm]

theorem natToChars_plain (n : Nat) :
    ∀ c ∈ natToChars n, isV c = false ∧ ¬(c = '.') :=
  fun c hc => ⟨isDig_isV_false (natToChars_digits n c hc),
    isDig_ne_dot (natToChars_digits n c hc)⟩

theorem neg_field_plain (m : Nat) :
    ∀ c ∈ '-' :: natToChars m, isV c = false ∧ ¬(c = '.') := by
  intro c hc
  rcases List.mem_cons.mp hc with hc | hc
  · rw [hc]
    exact ⟨by decide, by decide⟩
  · exact natToChars_plain m c hc

theorem split_stripV_vcons {A B C : List Char}
    (hA : ∀ c ∈ A, isV c = false ∧ ¬(c = '.'))
    (hB : ∀ c ∈ B, isV c = false ∧ ¬(c = '.'))
    (hC : ∀ c ∈ C, isV c = false ∧ ¬(c = '.')) :
    splitDot (stripV ('v' :: (A ++ '.' :: (B ++ '.' :: C)))) = [A, B, C] := by
  have hnv : ∀ c ∈ A ++ '.' :: (B ++ '.' :: C), isV c = false := by
    intro c hc
    simp only [List.mem_append, List.mem_cons] at hc
    rcases hc with hc | hc | hc | hc | hc
    · exact (hA c hc).1
    · rw [hc]
      decide
    · exact (hB c hc).1
    · rw [hc]
      decide
    · exact (hC c hc).1
  rw [stripV_cons_v, stripV_eq_self hnv]
  exact splitDot_three (fun c hc => (hA c hc).2) (fun c hc => (hB c hc).2)
    (fun c hc => (hC c hc).2)

theorem intToChars_nat_succ (n : Nat) : intToChars ((n : Int) + 1) = natToChars (n + 1) := by
  have h : ((n : Int) + 1) = ((n + 1 : Nat) : Int) := by push_cast; ring
  rw [h, intToChars_ofNat]

/-! ### Claim theorems -/

/-- C1: for every input of the form v{a}.{b}.{c} with a, b, c canonical
nonnegative decimal integers, inc_patch returns v{a}.{b}.{c+1}, inc_minor
returns v{a}.{b+1}.{c}, and inc_major returns v{a+1}.{b}.{c}; in particular
inc_patch on v1.2.9 gives v1.2.10 and inc_major on v3.4.5 gives v4.4.5. -/
theorem C1_canonical_increment (a b c : Nat) :
    inc_patch ('v' :: (natToChars a ++ '.' :: (natToChars b ++ '.' :: natToChars c)))
      = .ok ('v' :: (natToChars a ++ '.' :: (natToChars b ++ '.' :: natToChars (c + 1))))
    ∧ inc_minor ('v' :: (natToChars a ++ '.' :: (natToChars b ++ '.' :: natToChars c)))
      = .ok ('v' :: (natToChars a ++ '.' :: (natToChars (b + 1) ++ '.' :: natToChars c)))
    ∧ inc_major ('v' :: (natToChars a ++ '.' :: (natToChars b ++ '.' :: natToChars c)))
      = .ok ('v' :: (natToChars (a + 1) ++ '.' :: (natToChars b ++ '.' :: natToChars c)))
    ∧ inc_patch ("v1.2.9".data) = .ok ("v1.2.10".data)
    ∧ inc_major ("v3.4.5".data) = .ok ("v4.4.5".data) := by
  have hs := split_stripV_vcons (natToChars_plain a) (natToChars_plain b) (natToChars_plain c)
  refine ⟨?_, ?_, ?_, by decide, by decide⟩
  · rw [inc_patch_eval hs (pyInt_natToChars c), intToChars_nat_succ]
  · rw [inc_minor_eval hs (pyInt_natToChars b), intToChars_nat_succ]
  · rw [inc_major_eval hs (pyInt_natToChars a), intToChars_nat_succ]

/-- C2 counterexample: the claim says interior v characters are also
deleted, so an increment on an input would agree with the increment on the
input with every v filtered out; on 1.v2.3 the two sides differ. -/
theorem C2_counterexample :
    ¬ (inc_patch ("1.v2.3".data)
        = inc_patch (List.filter (fun c => !(isV c)) ("1.v2.3".data))) := by
  decide

/-- C2 amended: the source strips v characters only as the maximal leading
and trailing runs of the string, never interior ones; every increment
operation gives the same result on an input as on that input with its
leading and trailing v runs removed, and an interior v survives into the
output (inc_patch on 1.v2.3 yields v1.v2.4). -/
theorem C2_amended_end_strip_only :
    (∀ s : List Char,
      inc_patch s = inc_patch (stripV s)
      ∧ inc_minor s = inc_minor (stripV s)
      ∧ inc_major s = inc_major (stripV s))
    ∧ inc_patch ("1.v2.3".data) = .ok ("v1.v2.4".data) := by
  refine ⟨fun s => ⟨?_, ?_, ?_⟩, by decide⟩
  · simp only [inc_patch, stripV_idem]
  · simp only [inc_minor, stripV_idem]
  · simp only [inc_major, stripV_idem]

/-- C3 counterexample: the claim says surrounding whitespace is stripped
first, so an increment on a padded input would agree with the increment on
the trimmed input; on " v1.2.3 " versus v1.2.3 the results differ. -/
theorem C3_counterexample :
    ¬ (inc_patch ((" v1.2.3 ").data) = inc_patch ("v1.2.3".data)) := by
  decide

/-- C3 amended: no whitespace stripping is performed on the input; padding
becomes part of the outer fields (inc_patch on " v1.2.3 " returns
"v v1.2.4", keeping the spaces), and only the field handed to int()
tolerates surrounding whitespace, because int() itself strips it. -/
theorem C3_amended_no_ws_strip :
    inc_patch ((" v1.2.3 ").data) = .ok (("v v1.2.4").data)
    ∧ ∀ (w1 w2 mid : List Char), (∀ c ∈ w1, isPySpace c = true) →
        (∀ c ∈ w2, isPySpace c = true) → pyInt (w1 ++ mid ++ w2) = pyInt mid := by
  refine ⟨by decide, fun w1 w2 mid h1 h2 => ?_⟩
  unfold pyInt
  rw [pstrip_pad h1 h2]

/-- C3 amended, witness: whitespace around the parsed field is accepted by
integer parsing at a concrete input. -/
theorem C3_amended_witness :
    pyInt ((" ".data) ++ ("3".data) ++ (" ".data)) = pyInt ("3".data) :=
  C3_amended_no_ws_strip.2 (" ".data) (" ".data) ("3".data) (by decide) (by decide)

/-- C4: every increment operation reports the field-count error exactly
when the v-stripped input does not split on dots into three fields, both
for too few fields (v1.2) and for too many (v1.2.3.4); with exactly three
fields no field-count error arises. -/
theorem C4_field_count_error_iff :
    (∀ s : List Char,
      (inc_patch s = .error .fieldCount ↔ (splitDot (stripV s)).length ≠ 3)
      ∧ (inc_minor s = .error .fieldCount ↔ (splitDot (stripV s)).length ≠ 3)
      ∧ (inc_major s = .error .fieldCount ↔ (splitDot (stripV s)).length ≠ 3))
    ∧ inc_patch ("v1.2".data) = .error .fieldCount
    ∧ inc_patch ("v1.2.3.4".data) = .error .fieldCount := by
  refine ⟨fun s => ?_, by decide, by decide⟩
  rcases h : splitDot (stripV s) with _ | ⟨a, _ | ⟨b, _ | ⟨c, _ | ⟨d, t⟩⟩⟩⟩
  · refine ⟨?_, ?_, ?_⟩ <;> simp [inc_patch, inc_minor, inc_major, h]
  · refine ⟨?_, ?_, ?_⟩ <;> simp [inc_patch, inc_minor, inc_major, h]
  · refine ⟨?_, ?_, ?_⟩ <;> simp [inc_patch, inc_minor, inc_major, h]
  · refine ⟨?_, ?_, ?_⟩
    · rcases hp : pyInt c with _ | p <;> simp [inc_patch, h, hp]
    · rcases hp : pyInt b with _ | p <;> simp [inc_minor, h, hp]
    · rcases hp : pyInt a with _ | p <;> simp [inc_major, h, hp]
  · refine ⟨?_, ?_, ?_⟩ <;> simp [inc_patch, inc_minor, inc_major, h]

/-- C5: on any input whose v-stripped form splits into exactly three
fields, an increment operation fails exactly when the field it increments
is not a valid base-10 integer for int(); the other two fields are never
even inspected, so non-numeric text there cannot cause a failure. -/
theorem C5_failure_iff_bad_target_field (s major minor patch : List Char)
    (h : splitDot (stripV s) = [major, minor, patch]) :
    ((∃ e, inc_patch s = .error e) ↔ pyInt patch = none)
    ∧ ((∃ e, inc_minor s = .error e) ↔ pyInt minor = none)
    ∧ ((∃ e, inc_major s = .error e) ↔ pyInt major = none) := by
  refine ⟨?_, ?_, ?_⟩
  · rcases hp : pyInt patch with _ | p <;> simp [inc_patch, h, hp]
  · rcases hp : pyInt minor with _ | p <;> simp [inc_minor, h, hp]
  · rcases hp : pyInt major with _ | p <;> simp [inc_major, h, hp]

/-- C5 witness: on v1.2.x the three fields are 1, 2 and x, inc_patch
fails, and indeed x is not a valid integer. -/
theorem C5_witness :
    (∃ e, inc_patch ("v1.2.x".data) = .error e) ↔ pyInt ("x".data) = none :=
  (C5_failure_iff_bad_target_field ("v1.2.x".data) ("1".data) ("2".data) ("x".data)
    (by decide)).1

/-- C6: for any input string without a leading v, each increment operation
returns the same output on the string and on the string with a v
prepended. -/
theorem C6_leading_v_optional (s : List Char) (h : s.head? ≠ some 'v') :
    inc_patch ('v' :: s) = inc_patch s
    ∧ inc_minor ('v' :: s) = inc_minor s
    ∧ inc_major ('v' :: s) = inc_major s := by
  refine ⟨?_, ?_, ?_⟩
  · simp only [inc_patch, stripV_cons_v]
  · simp only [inc_minor, stripV_cons_v]
  · simp only [inc_major, stripV_cons_v]

/-- C6 witness: 1.2.3 and v1.2.3 produce identical results under
inc_patch. -/
theorem C6_witness : inc_patch ('v' :: "1.2.3".data) = inc_patch ("1.2.3".data) :=
  (C6_leading_v_optional ("1.2.3".data) (by decide)).1

/-- C7: whenever an increment operation succeeds, its output starts with
the character v, whether or not the input carried one. -/
theorem C7_output_starts_with_v (s out : List Char)
    (h : inc_patch s = .ok out ∨ inc_minor s = .ok out ∨ inc_major s = .ok out) :
    out.head? = some 'v' := by
  rcases h with h | h | h
  · rcases hsp : splitDot (stripV s) with _ | ⟨a, _ | ⟨b, _ | ⟨c, _ | ⟨d, t⟩⟩⟩⟩
    · simp [inc_patch, hsp] at h
    · simp [inc_patch, hsp] at h
    · simp [inc_patch, hsp] at h
    · rcases hp : pyInt c with _ | p
      · simp [inc_patch, hsp, hp] at h
      · simp only [inc_patch, hsp, hp, Except.ok.injEq] at h
        subst h
        rfl
    · simp [inc_patch, hsp] at h
  · rcases hsp : splitDot (stripV s) with _ | ⟨a, _ | ⟨b, _ | ⟨c, _ | ⟨d, t⟩⟩⟩⟩
    · simp [inc_minor, hsp] at h
    · simp [inc_minor, hsp] at h
    · simp [inc_minor, hsp] at h
    · rcases hp : pyInt b with _ | p
      · simp [inc_minor, hsp, hp] at h
      · simp only [inc_minor, hsp, hp, Except.ok.injEq] at h
        subst h
        rfl
    · simp [inc_minor, hsp] at h
  · rcases hsp : splitDot (stripV s) with _ | ⟨a, _ | ⟨b, _ | ⟨c, _ | ⟨d, t⟩⟩⟩⟩
    · simp [inc_major, hsp] at h
    · simp [inc_major, hsp] at h
    · simp [inc_major, hsp] at h
    · rcases hp : pyInt a with _ | p
      · simp [inc_major, hsp, hp] at h
      · simp only [inc_major, hsp, hp, Except.ok.injEq] at h
        subst h
        rfl
    · simp [inc_major, hsp] at h

/-- C7 witness: the successful inc_patch output on 1.2.3 starts with v. -/
theorem C7_witness : ("v1.2.4".data).head? = some 'v' :=
  C7_output_starts_with_v ("1.2.3".data) ("v1.2.4".data) (Or.inl (by decide))

/-- C8: the two fields not being incremented are copied into the output
verbatim (leading zeros and all), while the incremented field is re-emitted
as plain decimal text; concretely inc_patch on v01.02.003 gives v01.02.4. -/
theorem C8_verbatim_passthrough :
    inc_patch ("v01.02.003".data) = .ok ("v01.02.4".data)
    ∧ ∀ (s major minor patch : List Char) (p : Int),
        splitDot (stripV s) = [major, minor, patch] → pyInt patch = some p →
        inc_patch s = .ok ('v' :: (major ++ '.' :: (minor ++ '.' :: intToChars (p + 1)))) :=
  ⟨by decide, fun _ _ _ _ _ h hp => inc_patch_eval h hp⟩

/-- C8 witness: the general passthrough statement applied to v01.02.003,
whose patch field 003 parses to 3 and is re-emitted as 4. -/
theorem C8_witness :
    inc_patch ("v01.02.003".data)
      = .ok ('v' :: ("01".data ++ '.' :: ("02".data ++ '.' :: intToChars (3 + 1)))) :=
  C8_verbatim_passthrough.2 ("v01.02.003".data) ("01".data) ("02".data) ("003".data) 3
    (by decide) (by decide)

/-- C9: v characters are stripped as whole leading and trailing runs, so
every increment operation returns the same output on an input as on the
input with those runs removed; in particular vv1.2.3 and 1.2.3v behave
like 1.2.3. -/
theorem C9_v_runs_stripped_at_both_ends :
    (∀ s : List Char,
      inc_patch s = inc_patch (stripV s)
      ∧ inc_minor s = inc_minor (stripV s)
      ∧ inc_major s = inc_major (stripV s))
    ∧ inc_patch ("vv1.2.3".data) = inc_patch ("1.2.3".data)
    ∧ inc_minor ("vv1.2.3".data) = inc_minor ("1.2.3".data)
    ∧ inc_major ("vv1.2.3".data) = inc_major ("1.2.3".data)
    ∧ inc_patch ("1.2.3v".data) = inc_patch ("1.2.3".data)
    ∧ inc_minor ("1.2.3v".data) = inc_minor ("1.2.3".data)
    ∧ inc_major ("1.2.3v".data) = inc_major ("1.2.3".data) := by
  refine ⟨fun s => ⟨?_, ?_, ?_⟩, by decide, by decide, by decide, by decide, by decide,
    by decide⟩
  · simp only [inc_patch, stripV_idem]
  · simp only [inc_minor, stripV_idem]
  · simp only [inc_major, stripV_idem]

/-- C10: no non-negativity check exists; a target field that parses as a
negative integer is simply incremented, for each of the three operations,
and concretely inc_patch on v1.2.-3 gives v1.2.-2. -/
theorem C10_negative_target_field (a b n : Nat) :
    inc_patch ('v' :: (natToChars a ++ '.' :: (natToChars b ++ '.' ::
        ('-' :: natToChars (n + 1)))))
      = .ok ('v' :: (natToChars a ++ '.' :: (natToChars b ++ '.' ::
        intToChars (-(n : Int)))))
    ∧ inc_minor ('v' :: (natToChars a ++ '.' :: (('-' :: natToChars (n + 1)) ++ '.' ::
        natToChars b)))
      = .ok ('v' :: (natToChars a ++ '.' :: (intToChars (-(n : Int)) ++ '.' ::
        natToChars b)))
    ∧ inc_major ('v' :: (('-' :: natToChars (n + 1)) ++ '.' :: (natToChars a ++ '.' ::
        natToChars b)))
      = .ok ('v' :: (intToChars (-(n : Int)) ++ '.' :: (natToChars a ++ '.' ::
        natToChars b)))
    ∧ inc_patch ("v1.2.-3".data) = .ok ("v1.2.-2".data) := by
  have hcast : (-(((n + 1 : Nat) : Int)) + 1) = -(n : Int) := by push_cast; ring
  refine ⟨?_, ?_, ?_, by decide⟩
  · rw [inc_patch_eval
      (split_stripV_vcons (natToChars_plain a) (natToChars_plain b) (neg_field_plain (n + 1)))
      (pyInt_neg_natToChars (n + 1)), hcast]
  · rw [inc_minor_eval
      (split_stripV_vcons (natToChars_plain a) (neg_field_plain (n + 1)) (natToChars_plain b))
      (pyInt_neg_natToChars (n + 1)), hcast]
  · rw [inc_major_eval
      (split_stripV_vcons (neg_field_plain (n + 1)) (natToChars_plain a) (natToChars_plain b))
      (pyInt_neg_natToChars (n + 1)), hcast]
